import Mathlib

/-!
# argon2_full.c

A shallow embedding of the two entry points of `src/argon2_full.c`,
`argon2_hash_full` and `argon2_verify_full`, which extend the hash and verify
signatures of the Argon2 reference library with the secret and the associated
data.

The file only holds the two wrappers.  Everything they call lives in headers
and in a library that are not part of the file: the length limits of
`argon2.h`, the allocator, the core (`argon2_ctx`, `argon2_verify_ctx`), the
codec (`encode_string`, `decode_string`) and `clear_internal_memory`.  These
are the fields of `Env`; the wrappers are translated statement by statement
over an arbitrary `Env`, and every call they make is recorded, in order, in a
trace of `Event`s.
-/

namespace Argon2Full

/-! ## Data model -/

/-- Contents of a memory region, one number per byte. -/
abbrev Bytes := List Nat

/-- A pointer to bytes: `none` is NULL, `some bs` points to a region that
currently holds `bs`. -/
abbrev Ptr := Option Bytes

/-- Largest value of a `uint32_t`. -/
def UINT32_MAX : Nat := 4294967295

/-- The conversion `(uint32_t)x` of a `size_t` value. -/
def to_uint32 (x : Nat) : Nat := x % 2 ^ 32

/-- The enumeration `argon2_type` of `argon2.h`; the wrappers only pass it on. -/
abbrev argon2_type := Nat

/-- The return codes the two wrappers name, and `other` for every further
code of `argon2.h` that the core or the codec may hand back. -/
inductive argon2_error_codes
  | ARGON2_OK
  | ARGON2_OUTPUT_TOO_SHORT
  | ARGON2_OUTPUT_TOO_LONG
  | ARGON2_PWD_TOO_LONG
  | ARGON2_SALT_TOO_LONG
  | ARGON2_MEMORY_ALLOCATION_ERROR
  | ARGON2_ENCODING_FAIL
  | ARGON2_DECODING_FAIL
  | ARGON2_VERIFY_MISMATCH
  | other (code : Int)
deriving DecidableEq, Repr

open argon2_error_codes

/-- The structure `argon2_context`: the eighteen fields `argon2_hash_full`
assigns.  Lengths and costs are `uint32_t`; a callback is `none` when NULL. -/
structure argon2_context where
  out : Ptr
  outlen : Nat
  pwd : Ptr
  pwdlen : Nat
  salt : Ptr
  saltlen : Nat
  secret : Ptr
  secretlen : Nat
  ad : Ptr
  adlen : Nat
  t_cost : Nat
  m_cost : Nat
  lanes : Nat
  threads : Nat
  version : Nat
  allocate_cbk : Option Nat
  free_cbk : Option Nat
  flags : Nat
deriving DecidableEq, Repr

/-- What the wrappers take from outside `argon2_full.c`. -/
structure Env where
  /-- Largest value of a `size_t` on the platform. -/
  SIZE_MAX : Nat
  ARGON2_MAX_PWD_LENGTH : Nat
  ARGON2_MAX_SALT_LENGTH : Nat
  ARGON2_MAX_OUTLEN : Nat
  ARGON2_MIN_OUTLEN : Nat
  ARGON2_DEFAULT_FLAGS : Nat
  /-- The value of the local `ctx` of `argon2_verify_full` before any field is
  assigned. -/
  indeterminate : argon2_context
  /-- The allocator: `malloc k n` is the result of the `k`-th call of `malloc`
  in an operation, asked for `n` bytes: NULL, or a region with its contents. -/
  malloc : Nat → Nat → Ptr
  /-- The core: return code and the contents of the `out` region afterwards. -/
  argon2_ctx : argon2_context → argon2_type → argon2_error_codes × Bytes
  /-- The encoder, given the destination region and its length: return code and
  the contents of the destination afterwards. -/
  encode_string : Bytes → Nat → argon2_context → argon2_type → argon2_error_codes × Bytes
  /-- The decoder: return code and the context afterwards. -/
  decode_string : argon2_context → Bytes → argon2_type → argon2_error_codes × argon2_context
  /-- The core verification, given the desired tag: return code and the
  contents of the `out` region afterwards. -/
  argon2_verify_ctx : argon2_context → Ptr → argon2_type → argon2_error_codes × Bytes
  /-- The contents of a region after `clear_internal_memory (v, n)`. -/
  clear_internal_memory : Bytes → Nat → Bytes

/-- One call made by a wrapper. -/
inductive Event
  | malloc (size : Nat) (result : Ptr)
  | argon2_ctx (context : argon2_context) (type : argon2_type)
  | memcpy (src : Bytes) (n : Nat)
  | encode_string (dst_len : Nat) (context : argon2_context) (type : argon2_type)
  | decode_string (context : argon2_context) (str : Bytes) (type : argon2_type)
  | argon2_verify_ctx (context : argon2_context) (hash : Ptr) (type : argon2_type)
  | clear_internal_memory (v : Bytes) (n : Nat)
  | free (p : Ptr)
deriving DecidableEq, Repr

/-- The region `dst` after `memcpy (dst, src, n)`. -/
def memcpy (dst src : Bytes) (n : Nat) : Bytes := src.take n ++ dst.drop n

/-- The length of the string at the start of a region: the bytes before the
first NUL. -/
def strlen (s : Bytes) : Nat := (s.takeWhile (fun c => c != 0)).length

/-! ## argon2_hash_full -/

/-- The arguments of `argon2_hash_full`. -/
structure hash_args where
  t_cost : Nat
  m_cost : Nat
  parallelism : Nat
  pwd : Ptr
  pwdlen : Nat
  salt : Ptr
  saltlen : Nat
  secret : Ptr
  secretlen : Nat
  ad : Ptr
  adlen : Nat
  hash : Ptr
  hashlen : Nat
  encoded : Ptr
  encodedlen : Nat
  type : argon2_type
  version : Nat

/-- What a call of `argon2_hash_full` leaves behind: the return value, the
caller's two output buffers, and the calls made. -/
structure hash_result where
  ret : argon2_error_codes
  hash : Ptr
  encoded : Ptr
  trace : List Event
deriving DecidableEq, Repr

/-- Lines 61-80: the context `argon2_hash_full` fills in, `out` being the
region it allocated. -/
def hash_context (E : Env) (a : hash_args) (out : Bytes) : argon2_context where
  out := some out
  outlen := to_uint32 a.hashlen
  pwd := a.pwd
  pwdlen := to_uint32 a.pwdlen
  salt := a.salt
  saltlen := to_uint32 a.saltlen
  secret := a.secret
  secretlen := to_uint32 a.secretlen
  ad := a.ad
  adlen := to_uint32 a.adlen
  t_cost := a.t_cost
  m_cost := a.m_cost
  lanes := a.parallelism
  threads := a.parallelism
  allocate_cbk := none
  free_cbk := none
  flags := E.ARGON2_DEFAULT_FLAGS
  version := a.version

/-- Lines 25-108. -/
def argon2_hash_full (E : Env) (a : hash_args) : hash_result :=
  if a.pwdlen > E.ARGON2_MAX_PWD_LENGTH then
    ⟨ARGON2_PWD_TOO_LONG, a.hash, a.encoded, []⟩
  else if a.saltlen > E.ARGON2_MAX_SALT_LENGTH then
    ⟨ARGON2_SALT_TOO_LONG, a.hash, a.encoded, []⟩
  else if a.hashlen > E.ARGON2_MAX_OUTLEN then
    ⟨ARGON2_OUTPUT_TOO_LONG, a.hash, a.encoded, []⟩
  else if a.hashlen < E.ARGON2_MIN_OUTLEN then
    ⟨ARGON2_OUTPUT_TOO_SHORT, a.hash, a.encoded, []⟩
  else
    match E.malloc 0 a.hashlen with
    | none =>
      ⟨ARGON2_MEMORY_ALLOCATION_ERROR, a.hash, a.encoded, [.malloc a.hashlen none]⟩
    | some out =>
      let context := hash_context E a out
      let result := (E.argon2_ctx context a.type).1
      let out1 := (E.argon2_ctx context a.type).2
      let t1 : List Event := [.malloc a.hashlen (some out), .argon2_ctx context a.type]
      if result ≠ ARGON2_OK then
        ⟨result, a.hash, a.encoded,
          t1 ++ [.clear_internal_memory out1 a.hashlen,
                 .free (some (E.clear_internal_memory out1 a.hashlen))]⟩
      else
        /- if raw hash requested, write it -/
        let hash1 : Ptr := a.hash.map (fun h => memcpy h out1 a.hashlen)
        let t2 : List Event := match a.hash with
          | none => t1
          | some _ => t1 ++ [.memcpy out1 a.hashlen]
        /- if encoding requested, write it -/
        match a.encoded with
        | none =>
          ⟨ARGON2_OK, hash1, none,
            t2 ++ [.clear_internal_memory out1 a.hashlen,
                   .free (some (E.clear_internal_memory out1 a.hashlen))]⟩
        | some enc =>
          if a.encodedlen ≠ 0 then
            let context1 := { context with out := some out1 }
            let e := E.encode_string enc a.encodedlen context1 a.type
            let t3 : List Event := t2 ++ [.encode_string a.encodedlen context1 a.type]
            if e.1 ≠ ARGON2_OK then
              ⟨ARGON2_ENCODING_FAIL, hash1,
                some (E.clear_internal_memory e.2 a.encodedlen),
                t3 ++ [.clear_internal_memory out1 a.hashlen,
                       .clear_internal_memory e.2 a.encodedlen,
                       .free (some (E.clear_internal_memory out1 a.hashlen))]⟩
            else
              ⟨ARGON2_OK, hash1, some e.2,
                t3 ++ [.clear_internal_memory out1 a.hashlen,
                       .free (some (E.clear_internal_memory out1 a.hashlen))]⟩
          else
            ⟨ARGON2_OK, hash1, some enc,
              t2 ++ [.clear_internal_memory out1 a.hashlen,
                     .free (some (E.clear_internal_memory out1 a.hashlen))]⟩

/-! ## argon2_verify_full -/

/-- The arguments of `argon2_verify_full`. -/
structure verify_args where
  encoded : Ptr
  pwd : Ptr
  pwdlen : Nat
  secret : Ptr
  secretlen : Nat
  ad : Ptr
  adlen : Nat
  type : argon2_type

/-- What a call of `argon2_verify_full` leaves behind: the return value and
the calls made. -/
structure verify_result where
  ret : argon2_error_codes
  trace : List Event
deriving DecidableEq, Repr

/-- Lines 141-152: the context handed to `decode_string`; `salt` and `out`
are the two regions allocated for the decoded fields. -/
def decode_context (E : Env) (a : verify_args) (max_field_len : Nat)
    (salt out : Bytes) : argon2_context :=
  { E.indeterminate with
    saltlen := max_field_len
    outlen := max_field_len
    salt := some salt
    out := some out
    pwd := a.pwd
    pwdlen := to_uint32 a.pwdlen }

/-- Lines 160-171: the context handed to `argon2_verify_ctx`; `ctx` is the
context `decode_string` left and `out` the fresh region. -/
def verify_context (a : verify_args) (ctx : argon2_context) (out : Bytes) :
    argon2_context :=
  { ctx with
    out := some out
    secret := a.secret
    secretlen := to_uint32 a.secretlen
    ad := a.ad
    adlen := to_uint32 a.adlen }

/-- Lines 110-185. -/
def argon2_verify_full (E : Env) (a : verify_args) : verify_result :=
  if a.pwdlen > E.ARGON2_MAX_PWD_LENGTH then
    ⟨ARGON2_PWD_TOO_LONG, []⟩
  else
    match a.encoded with
    | none => ⟨ARGON2_DECODING_FAIL, []⟩
    | some encoded =>
      let encoded_len := strlen encoded
      if encoded_len > UINT32_MAX then
        ⟨ARGON2_DECODING_FAIL, []⟩
      else
        /- No field can be longer than the encoded length -/
        let max_field_len := to_uint32 encoded_len
        let t1 : List Event :=
          [.malloc max_field_len (E.malloc 0 max_field_len),
           .malloc max_field_len (E.malloc 1 max_field_len)]
        match E.malloc 0 max_field_len, E.malloc 1 max_field_len with
        | some salt, some out =>
          let ctx0 := decode_context E a max_field_len salt out
          let ret := (E.decode_string ctx0 encoded a.type).1
          let ctx := (E.decode_string ctx0 encoded a.type).2
          let t2 : List Event := t1 ++ [.decode_string ctx0 encoded a.type]
          if ret ≠ ARGON2_OK then
            ⟨ret, t2 ++ [.free ctx.salt, .free ctx.out, .free none]⟩
          else
            /- Set aside the desired result, and get a new buffer. -/
            let desired_result := ctx.out
            let t3 : List Event := t2 ++ [.malloc ctx.outlen (E.malloc 2 ctx.outlen)]
            match E.malloc 2 ctx.outlen with
            | none =>
              ⟨ARGON2_MEMORY_ALLOCATION_ERROR,
                t3 ++ [.free ctx.salt, .free none, .free desired_result]⟩
            | some out2 =>
              let ctx1 := verify_context a ctx out2
              let v := E.argon2_verify_ctx ctx1 desired_result a.type
              ⟨v.1, t3 ++ [.argon2_verify_ctx ctx1 desired_result a.type,
                          .free ctx.salt, .free (some v.2), .free desired_result]⟩
        | s, o =>
          ⟨ARGON2_MEMORY_ALLOCATION_ERROR, t1 ++ [.free s, .free o, .free none]⟩

/-! ## Contracts of the absent library, as the specification words them -/

/-- Modelled from the spec: `clear_internal_memory` is declared in `core.h`,
which is absent; the specification has sensitive buffers overwritten with zeros
before deallocation.  The region `v` with its first `n` bytes set to zero. -/
def wipe (v : Bytes) (n : Nat) : Bytes := List.replicate n 0 ++ v.drop n

/-- The environment clears memory by writing zeros. -/
def Wipes (E : Env) : Prop := ∀ v n, E.clear_internal_memory v n = wipe v n

/-- Modelled from the spec: `argon2_verify_ctx` belongs to the absent core; by
section 4.6 verification recomputes the tag from the context and compares it
with the desired tag over the tag length.  An error of the core is handed
back as it is. -/
def verify_ctx_model (core : argon2_context → argon2_type → argon2_error_codes × Bytes)
    (context : argon2_context) (hash : Ptr) (type : argon2_type) :
    argon2_error_codes × Bytes :=
  if (core context type).1 ≠ ARGON2_OK then core context type
  else if (hash.getD []).take context.outlen = (core context type).2.take context.outlen then
    (ARGON2_OK, (core context type).2)
  else (ARGON2_VERIFY_MISMATCH, (core context type).2)

/-- The core verification of the environment is recompute-and-compare over
the core of the environment. -/
def VerifyRecomputes (E : Env) : Prop :=
  ∀ context hash type,
    E.argon2_verify_ctx context hash type = verify_ctx_model E.argon2_ctx context hash type

/-- A 32-bit number as four bytes, least significant first. -/
def le32 (n : Nat) : Bytes :=
  [n % 256, n / 256 % 256, n / 65536 % 256, n / 16777216 % 256]

/-- Modelled from the spec: the bytes the absent core hashes into its seed, by
section 4.1: lane count, output length, memory cost, time cost, version,
variant, then password, salt, secret and associated data, each as its 4-byte
little-endian length followed by that many bytes. -/
def seed_input (c : argon2_context) (type : argon2_type) : Bytes :=
  le32 c.lanes ++ le32 c.outlen ++ le32 c.m_cost ++ le32 c.t_cost ++ le32 c.version
    ++ le32 type
    ++ le32 c.pwdlen ++ (c.pwd.getD []).take c.pwdlen
    ++ le32 c.saltlen ++ (c.salt.getD []).take c.saltlen
    ++ le32 c.secretlen ++ (c.secret.getD []).take c.secretlen
    ++ le32 c.adlen ++ (c.ad.getD []).take c.adlen

/-- What the core can read of a context: every field, but of `out` only
whether it is NULL, and of each input region only the bytes its length
covers. -/
def core_view (c : argon2_context) : argon2_context :=
  { c with
    out := c.out.map (fun _ => [])
    pwd := c.pwd.map (fun b => b.take c.pwdlen)
    salt := c.salt.map (fun b => b.take c.saltlen)
    secret := c.secret.map (fun b => b.take c.secretlen)
    ad := c.ad.map (fun b => b.take c.adlen) }

/-- The core is a deterministic function of its context: two contexts that
read the same get the same return code and, on success, the same tag. -/
def CoreDeterministic (E : Env) : Prop :=
  ∀ c1 c2 type, core_view c1 = core_view c2 →
    (E.argon2_ctx c1 type).1 = (E.argon2_ctx c2 type).1 ∧
    ((E.argon2_ctx c1 type).1 = ARGON2_OK →
      (E.argon2_ctx c1 type).2.take c1.outlen = (E.argon2_ctx c2 type).2.take c2.outlen)

/-- The decoder recovered what the encoder rendered: the context `d` it left
has the salt, the tag and the parameters of the context `rendered`, and the
password fields of the context `given` to it are as they were. -/
def Recovers (rendered given d : argon2_context) : Prop :=
  d.saltlen = rendered.saltlen ∧
  d.salt.map (fun b => b.take d.saltlen)
    = rendered.salt.map (fun b => b.take rendered.saltlen) ∧
  d.outlen = rendered.outlen ∧
  d.out.map (fun b => b.take d.outlen)
    = rendered.out.map (fun b => b.take rendered.outlen) ∧
  d.t_cost = rendered.t_cost ∧ d.m_cost = rendered.m_cost ∧
  d.lanes = rendered.lanes ∧ d.threads = rendered.threads ∧
  d.version = rendered.version ∧ d.allocate_cbk = rendered.allocate_cbk ∧
  d.free_cbk = rendered.free_cbk ∧ d.flags = rendered.flags ∧
  d.pwd = given.pwd ∧ d.pwdlen = given.pwdlen

instance (rendered given d : argon2_context) : Decidable (Recovers rendered given d) := by
  unfold Recovers; infer_instance

/-! ## A small environment to run the wrappers in -/

/-- Stand-in for the tag of the absent core: byte `i` is a weighted checksum
of the seed input. -/
def ref_tag (c : argon2_context) (type : argon2_type) : Bytes :=
  (List.range c.outlen).map fun i =>
    (((seed_input c type).enum.map fun jx => (i + jx.1 + 1) * jx.2).sum) % 256

/-- Modelled from the spec: the core is absent; by sections 3 and 8 a memory
cost below 8 per lane fails with the invalid-parameter error, here the code
`other (-14)`, and `out` is left alone.  The tag written otherwise is the
stand-in `ref_tag`. -/
def ref_argon2_ctx (c : argon2_context) (type : argon2_type) :
    argon2_error_codes × Bytes :=
  if c.m_cost < 8 * c.lanes then (other (-14), c.out.getD [])
  else (ARGON2_OK, ref_tag c type)

/-- Stand-in record: every number is written as one non-zero byte, in the
order variant, version, memory cost, time cost, lanes, salt length, salt, tag
length, tag, and a closing NUL. -/
def ref_render (c : argon2_context) (type : argon2_type) : Bytes :=
  [type + 1, c.version + 1, c.m_cost + 1, c.t_cost + 1, c.lanes + 1, c.saltlen + 1]
    ++ ((c.salt.getD []).take c.saltlen).map (fun b => b + 1)
    ++ [c.outlen + 1]
    ++ ((c.out.getD []).take c.outlen).map (fun b => b + 1)
    ++ [0]

/-- Stand-in for the absent `encode_string`: it fails when the record does
not fit the destination and otherwise writes it. -/
def ref_encode_string (dst : Bytes) (dst_len : Nat) (c : argon2_context)
    (type : argon2_type) : argon2_error_codes × Bytes :=
  if (ref_render c type).length > dst_len then (ARGON2_ENCODING_FAIL, dst)
  else (ARGON2_OK, memcpy dst (ref_render c type) (ref_render c type).length)

/-- Stand-in for the absent `decode_string`: it parses what `ref_render`
writes, strictly: wrong variant, missing fields, a field longer than the room
in the context, or a memory cost below 8 per lane give `ARGON2_DECODING_FAIL`.
The fields a record does not carry get their defaults. -/
def ref_decode_string (flags : Nat) (c : argon2_context) (str : Bytes)
    (type : argon2_type) : argon2_error_codes × argon2_context :=
  match str.takeWhile (fun b => b != 0) with
  | t :: v :: m :: tc :: p :: sl :: rest =>
    if t ≠ type + 1 ∨ c.saltlen < sl - 1 ∨ rest.length < sl - 1 then
      (ARGON2_DECODING_FAIL, c)
    else
      match rest.drop (sl - 1) with
      | [] => (ARGON2_DECODING_FAIL, c)
      | ol :: tag =>
        if c.outlen < ol - 1 ∨ tag.length ≠ ol - 1 ∨ m - 1 < 8 * (p - 1) then
          (ARGON2_DECODING_FAIL, c)
        else
          (ARGON2_OK,
            { c with
              version := v - 1
              m_cost := m - 1
              t_cost := tc - 1
              lanes := p - 1
              threads := p - 1
              salt := some (memcpy (c.salt.getD [])
                        ((rest.take (sl - 1)).map (fun b => b - 1)) (sl - 1))
              saltlen := sl - 1
              out := some (memcpy (c.out.getD []) (tag.map (fun b => b - 1)) (ol - 1))
              outlen := ol - 1
              secret := none
              secretlen := 0
              ad := none
              adlen := 0
              allocate_cbk := none
              free_cbk := none
              flags := flags })
  | _ => (ARGON2_DECODING_FAIL, c)

/-- An allocator that always succeeds and hands out regions filled with 170. -/
def plentiful_heap (_k n : Nat) : Ptr := some (List.replicate n 170)

/-- An allocator as the C standard also allows it: a request for zero bytes
gets NULL. -/
def null_on_zero_heap (_k n : Nat) : Ptr :=
  if n = 0 then none else some (List.replicate n 170)

/-- The environment of the stand-ins, for a platform whose `size_t` goes up
to `size_max` and an allocator `heap`.  The limits are those the
specification gives as examples: 2^32-1 for the lengths, 4 for the shortest
tag. -/
def ref_env (size_max : Nat) (heap : Nat → Nat → Ptr) : Env where
  SIZE_MAX := size_max
  ARGON2_MAX_PWD_LENGTH := 4294967295
  ARGON2_MAX_SALT_LENGTH := 4294967295
  ARGON2_MAX_OUTLEN := 4294967295
  ARGON2_MIN_OUTLEN := 4
  ARGON2_DEFAULT_FLAGS := 0
  indeterminate := ⟨none, 204, none, 204, none, 204, none, 204, none, 204,
    204, 204, 204, 204, 204, some 204, some 204, 204⟩
  malloc := heap
  argon2_ctx := ref_argon2_ctx
  encode_string := ref_encode_string
  decode_string := ref_decode_string 0
  argon2_verify_ctx := verify_ctx_model ref_argon2_ctx
  clear_internal_memory := wipe

/-- The 32-bit platform with an allocator that never fails. -/
def env32 : Env := ref_env 4294967295 plentiful_heap

/-- The 64-bit platform with an allocator that never fails. -/
def env64 : Env := ref_env 18446744073709551615 plentiful_heap

/-- A call of `argon2_hash_full`: password "pass", salt "saltsalt", secret
"key", associated data "ad", a 4-byte tag, both outputs requested. -/
def sample_hash_args : hash_args where
  t_cost := 2
  m_cost := 16
  parallelism := 1
  pwd := some [112, 97, 115, 115]
  pwdlen := 4
  salt := some [115, 97, 108, 116, 115, 97, 108, 116]
  saltlen := 8
  secret := some [107, 101, 121]
  secretlen := 3
  ad := some [97, 100]
  adlen := 2
  hash := some [0, 0, 0, 0]
  hashlen := 4
  encoded := some (List.replicate 24 0)
  encodedlen := 24
  type := 2
  version := 19

/-! ## Reading a trace -/

/-- The calls of the core `argon2_ctx` in a trace, in order. -/
def core_calls : List Event → List (argon2_context × argon2_type)
  | [] => []
  | .argon2_ctx c t :: es => (c, t) :: core_calls es
  | _ :: es => core_calls es

/-- The calls of `argon2_verify_ctx` in a trace, in order. -/
def verify_calls : List Event → List (argon2_context × Ptr × argon2_type)
  | [] => []
  | .argon2_verify_ctx c h t :: es => (c, h, t) :: verify_calls es
  | _ :: es => verify_calls es

/-- The calls of `malloc` in a trace, in order: size asked and result. -/
def mallocs : List Event → List (Nat × Ptr)
  | [] => []
  | .malloc n r :: es => (n, r) :: mallocs es
  | _ :: es => mallocs es

/-- The calls of `clear_internal_memory` in a trace, in order. -/
def clears : List Event → List (Bytes × Nat)
  | [] => []
  | .clear_internal_memory v n :: es => (v, n) :: clears es
  | _ :: es => clears es

/-- The contents of the regions handed to `free` in a trace, in order. -/
def frees : List Event → List Ptr
  | [] => []
  | .free p :: es => p :: frees es
  | _ :: es => frees es

/-- The four length checks of `argon2_hash_full` pass. -/
def hash_lengths_ok (E : Env) (a : hash_args) : Prop :=
  a.pwdlen ≤ E.ARGON2_MAX_PWD_LENGTH ∧ a.saltlen ≤ E.ARGON2_MAX_SALT_LENGTH ∧
  a.hashlen ≤ E.ARGON2_MAX_OUTLEN ∧ E.ARGON2_MIN_OUTLEN ≤ a.hashlen

instance (E : Env) (a : hash_args) : Decidable (hash_lengths_ok E a) := by
  unfold hash_lengths_ok; infer_instance

/-- The events up to and including the copy of the tag into the caller's
`hash` buffer, when the core succeeded. -/
def hash_events (E : Env) (a : hash_args) (out : Bytes) : List Event :=
  match a.hash with
  | none => [.malloc a.hashlen (some out), .argon2_ctx (hash_context E a out) a.type]
  | some _ => [.malloc a.hashlen (some out), .argon2_ctx (hash_context E a out) a.type,
               .memcpy (E.argon2_ctx (hash_context E a out) a.type).2 a.hashlen]

/-- The limits of `argon2.h` are `uint32_t` values. -/
def limits_fit (E : Env) : Prop :=
  E.ARGON2_MAX_PWD_LENGTH ≤ UINT32_MAX ∧ E.ARGON2_MAX_SALT_LENGTH ≤ UINT32_MAX ∧
  E.ARGON2_MAX_OUTLEN ≤ UINT32_MAX

instance (E : Env) : Decidable (limits_fit E) := by
  unfold limits_fit; infer_instance

/-- The lengths of a call of `argon2_hash_full` are values of a `size_t`. -/
def hash_args.representable (E : Env) (a : hash_args) : Prop :=
  a.pwdlen ≤ E.SIZE_MAX ∧ a.saltlen ≤ E.SIZE_MAX ∧ a.secretlen ≤ E.SIZE_MAX ∧
  a.adlen ≤ E.SIZE_MAX ∧ a.hashlen ≤ E.SIZE_MAX ∧ a.encodedlen ≤ E.SIZE_MAX

instance (E : Env) (a : hash_args) : Decidable (a.representable E) := by
  unfold hash_args.representable; infer_instance

/-- The sample call with a tag length of zero. -/
def zero_outlen_args : hash_args := { sample_hash_args with hashlen := 0 }

/-- The sample call with a memory cost of 7, below 8 per lane. -/
def low_memory_args : hash_args := { sample_hash_args with m_cost := 7 }

/-- The sample call with room for 10 characters only in `encoded`. -/
def short_encoded_args : hash_args :=
  { sample_hash_args with encoded := some (List.replicate 10 85), encodedlen := 10 }

/-- The sample call on a 64-bit platform with 4 GiB of associated data. -/
def huge_ad_args : hash_args :=
  { sample_hash_args with ad := some (List.replicate 4294967296 97), adlen := 4294967296 }

/-- The sample call on a 64-bit platform with a secret of 4 GiB. -/
def huge_secret_args : hash_args :=
  { sample_hash_args with
    secret := some (List.replicate 4294967296 107), secretlen := 4294967296 }

/-- The checks of `argon2_verify_full` before it allocates pass: the password
is not too long, `encoded` points to `enc`, and the string there is not longer
than `UINT32_MAX`. -/
def verify_prechecks_ok (E : Env) (a : verify_args) (enc : Bytes) : Prop :=
  a.pwdlen ≤ E.ARGON2_MAX_PWD_LENGTH ∧ a.encoded = some enc ∧ strlen enc ≤ UINT32_MAX

instance (E : Env) (a : verify_args) (enc : Bytes) :
    Decidable (verify_prechecks_ok E a enc) := by
  unfold verify_prechecks_ok; infer_instance

/-- The two allocations `argon2_verify_full` starts with, for a record `enc`. -/
def decode_mallocs (E : Env) (enc : Bytes) : List Event :=
  [.malloc (to_uint32 (strlen enc)) (E.malloc 0 (to_uint32 (strlen enc))),
   .malloc (to_uint32 (strlen enc)) (E.malloc 1 (to_uint32 (strlen enc)))]

/-- The context `argon2_verify_full` hands to `decode_string` for a record
`enc`, `salt` and `out` being the two regions allocated. -/
def decode_input (E : Env) (a : verify_args) (enc salt out : Bytes) : argon2_context :=
  decode_context E a (to_uint32 (strlen enc)) salt out

/-- The context `decode_string` leaves in `argon2_verify_full`. -/
def decoded (E : Env) (a : verify_args) (enc salt out : Bytes) : argon2_context :=
  (E.decode_string (decode_input E a enc salt out) enc a.type).2

/-- The context `argon2_hash_full` hands to `encode_string`: its context, with
the tag of the core in `out`. -/
def rendered_context (E : Env) (a : hash_args) (out : Bytes) : argon2_context :=
  { hash_context E a out with
    out := some (E.argon2_ctx (hash_context E a out) a.type).2 }

/-- The call of `argon2_verify_full` on the record a call of `argon2_hash_full`
wrote, with the password and the variant of that call and with the given
secret and associated data. -/
def verify_of (E : Env) (a : hash_args) (secret : Ptr) (secretlen : Nat) (ad : Ptr)
    (adlen : Nat) : verify_args where
  encoded := (argon2_hash_full E a).encoded
  pwd := a.pwd
  pwdlen := a.pwdlen
  secret := secret
  secretlen := secretlen
  ad := ad
  adlen := adlen
  type := a.type

/-- The 32-bit platform with an allocator for which a request for zero bytes
gets NULL. -/
def env32_null_on_zero : Env := ref_env 4294967295 null_on_zero_heap

/-- Verification of the empty string with the password "pass". -/
def empty_record_args : verify_args where
  encoded := some [0]
  pwd := some [112, 97, 115, 115]
  pwdlen := 4
  secret := none
  secretlen := 0
  ad := none
  adlen := 0
  type := 2

/-- Verification of a record cut off inside the salt, with the password
"pass". -/
def truncated_record_args : verify_args :=
  { empty_record_args with encoded := some [3, 20, 17, 3, 2, 9, 116, 98, 0] }

/-- The record the sample call of `argon2_hash_full` writes. -/
def sample_record : Bytes :=
  [3, 20, 17, 3, 2, 9, 116, 98, 109, 117, 116, 98, 109, 117, 5, 177, 27, 133, 239,
   0, 0, 0, 0, 0]

/-- Verification of the sample record with the password, secret and associated
data of the sample call. -/
def sample_verify_args : verify_args where
  encoded := some sample_record
  pwd := some [112, 97, 115, 115]
  pwdlen := 4
  secret := some [107, 101, 121]
  secretlen := 3
  ad := some [97, 100]
  adlen := 2
  type := 2

/-- Verification of the sample record on a 64-bit platform with a secret of
4 GiB. -/
def huge_secret_verify_args : verify_args :=
  { sample_verify_args with
    secret := some (List.replicate 4294967296 107), secretlen := 4294967296 }

/-- Verification of the sample record on a 64-bit platform with 4 GiB of
associated data. -/
def huge_ad_verify_args : verify_args :=
  { sample_verify_args with
    ad := some (List.replicate 4294967296 97), adlen := 4294967296 }

/-- The sample call with a salt of `n` bytes and room for `n + 25` characters
in `encoded`. -/
def salt_args (n : Nat) : hash_args :=
  { sample_hash_args with
    salt := some (List.replicate n 115), saltlen := n,
    encoded := some (List.replicate (n + 25) 0), encodedlen := n + 25 }

/-- The sample call on a 64-bit platform with a salt of 2^32-1 bytes, the
longest the length check lets through. -/
def huge_salt_args : hash_args := salt_args 4294967295

theorem hash_full_alloc_fail (E : Env) (a : hash_args) (hl : hash_lengths_ok E a)
    (hm : E.malloc 0 a.hashlen = none) :
    argon2_hash_full E a =
      ⟨ARGON2_MEMORY_ALLOCATION_ERROR, a.hash, a.encoded, [.malloc a.hashlen none]⟩ := by
  obtain ⟨h1, h2, h3, h4⟩ := hl
  simp [argon2_hash_full, not_lt.mpr h1, not_lt.mpr h2, not_lt.mpr h3, not_lt.mpr h4, hm]

theorem hash_full_core_fail (E : Env) (a : hash_args) (out : Bytes)
    (hl : hash_lengths_ok E a) (hm : E.malloc 0 a.hashlen = some out)
    (hc : (E.argon2_ctx (hash_context E a out) a.type).1 ≠ ARGON2_OK) :
    argon2_hash_full E a =
      ⟨(E.argon2_ctx (hash_context E a out) a.type).1, a.hash, a.encoded,
        [.malloc a.hashlen (some out), .argon2_ctx (hash_context E a out) a.type,
         .clear_internal_memory (E.argon2_ctx (hash_context E a out) a.type).2 a.hashlen,
         .free (some (E.clear_internal_memory
            (E.argon2_ctx (hash_context E a out) a.type).2 a.hashlen))]⟩ := by
  obtain ⟨h1, h2, h3, h4⟩ := hl
  simp [argon2_hash_full, not_lt.mpr h1, not_lt.mpr h2, not_lt.mpr h3, not_lt.mpr h4, hm, hc]

theorem hash_full_no_encoding (E : Env) (a : hash_args) (out : Bytes)
    (hl : hash_lengths_ok E a) (hm : E.malloc 0 a.hashlen = some out)
    (hc : (E.argon2_ctx (hash_context E a out) a.type).1 = ARGON2_OK)
    (he : a.encoded = none ∨ a.encodedlen = 0) :
    argon2_hash_full E a =
      ⟨ARGON2_OK,
        a.hash.map (fun h => memcpy h (E.argon2_ctx (hash_context E a out) a.type).2 a.hashlen),
        a.encoded,
        hash_events E a out ++
        [.clear_internal_memory (E.argon2_ctx (hash_context E a out) a.type).2 a.hashlen,
         .free (some (E.clear_internal_memory
            (E.argon2_ctx (hash_context E a out) a.type).2 a.hashlen))]⟩ := by
  obtain ⟨h1, h2, h3, h4⟩ := hl
  rcases he with he | he
  · cases hh : a.hash <;>
      simp [argon2_hash_full, hash_events, not_lt.mpr h1, not_lt.mpr h2, not_lt.mpr h3,
        not_lt.mpr h4, hm, hc, he, hh]
  · cases hh : a.hash <;> cases hen : a.encoded <;>
      simp [argon2_hash_full, hash_events, not_lt.mpr h1, not_lt.mpr h2, not_lt.mpr h3,
        not_lt.mpr h4, hm, hc, he, hh, hen]

theorem hash_full_encoding (E : Env) (a : hash_args) (out enc : Bytes)
    (hl : hash_lengths_ok E a) (hm : E.malloc 0 a.hashlen = some out)
    (hc : (E.argon2_ctx (hash_context E a out) a.type).1 = ARGON2_OK)
    (he : a.encoded = some enc) (hn : a.encodedlen ≠ 0) :
    argon2_hash_full E a =
      (let tag := (E.argon2_ctx (hash_context E a out) a.type).2
       let context1 := { hash_context E a out with out := some tag }
       let e := E.encode_string enc a.encodedlen context1 a.type
       if e.1 ≠ ARGON2_OK then
         ⟨ARGON2_ENCODING_FAIL, a.hash.map (fun h => memcpy h tag a.hashlen),
           some (E.clear_internal_memory e.2 a.encodedlen),
           hash_events E a out ++
           [.encode_string a.encodedlen context1 a.type,
            .clear_internal_memory tag a.hashlen,
            .clear_internal_memory e.2 a.encodedlen,
            .free (some (E.clear_internal_memory tag a.hashlen))]⟩
       else
         ⟨ARGON2_OK, a.hash.map (fun h => memcpy h tag a.hashlen), some e.2,
           hash_events E a out ++
           [.encode_string a.encodedlen context1 a.type,
            .clear_internal_memory tag a.hashlen,
            .free (some (E.clear_internal_memory tag a.hashlen))]⟩) := by
  obtain ⟨h1, h2, h3, h4⟩ := hl
  cases hh : a.hash <;>
    simp [argon2_hash_full, hash_events, not_lt.mpr h1, not_lt.mpr h2, not_lt.mpr h3,
      not_lt.mpr h4, hm, hc, he, hh, hn]

theorem to_uint32_of_le {x : Nat} (h : x ≤ UINT32_MAX) : to_uint32 x = x := by
  unfold to_uint32 UINT32_MAX at *
  exact Nat.mod_eq_of_lt (by omega)

theorem take_wipe (v : Bytes) (n : Nat) : (wipe v n).take n = List.replicate n 0 := by
  simp [wipe]

/-! ## Claims on argon2_hash_full -/

/-- C4: `argon2_hash_full` checks the four lengths first and in this order:
password too long, else salt too long, else tag too long, else tag too short
(a tag length of zero is too short whenever the minimum is positive).  In each
case the trace is empty, so nothing was allocated and the core was not called,
and the caller's `hash` and `encoded` buffers are as they were. -/
theorem argon2_hash_full_length_checks (E : Env) (a : hash_args) :
    (a.pwdlen > E.ARGON2_MAX_PWD_LENGTH →
      argon2_hash_full E a = ⟨ARGON2_PWD_TOO_LONG, a.hash, a.encoded, []⟩) ∧
    (a.pwdlen ≤ E.ARGON2_MAX_PWD_LENGTH → a.saltlen > E.ARGON2_MAX_SALT_LENGTH →
      argon2_hash_full E a = ⟨ARGON2_SALT_TOO_LONG, a.hash, a.encoded, []⟩) ∧
    (a.pwdlen ≤ E.ARGON2_MAX_PWD_LENGTH → a.saltlen ≤ E.ARGON2_MAX_SALT_LENGTH →
      a.hashlen > E.ARGON2_MAX_OUTLEN →
      argon2_hash_full E a = ⟨ARGON2_OUTPUT_TOO_LONG, a.hash, a.encoded, []⟩) ∧
    (a.pwdlen ≤ E.ARGON2_MAX_PWD_LENGTH → a.saltlen ≤ E.ARGON2_MAX_SALT_LENGTH →
      a.hashlen ≤ E.ARGON2_MAX_OUTLEN → a.hashlen < E.ARGON2_MIN_OUTLEN →
      argon2_hash_full E a = ⟨ARGON2_OUTPUT_TOO_SHORT, a.hash, a.encoded, []⟩) ∧
    (a.pwdlen ≤ E.ARGON2_MAX_PWD_LENGTH → a.saltlen ≤ E.ARGON2_MAX_SALT_LENGTH →
      0 < E.ARGON2_MIN_OUTLEN → a.hashlen = 0 →
      argon2_hash_full E a = ⟨ARGON2_OUTPUT_TOO_SHORT, a.hash, a.encoded, []⟩) := by
  refine ⟨?_, ?_, ?_, ?_, ?_⟩
  · intro h1
    simp [argon2_hash_full, h1]
  · intro h1 h2
    simp [argon2_hash_full, not_lt.mpr h1, h2]
  · intro h1 h2 h3
    simp [argon2_hash_full, not_lt.mpr h1, not_lt.mpr h2, h3]
  · intro h1 h2 h3 h4
    simp [argon2_hash_full, not_lt.mpr h1, not_lt.mpr h2, not_lt.mpr h3, h4]
  · intro h1 h2 h3 h4
    simp [argon2_hash_full, not_lt.mpr h1, not_lt.mpr h2, h4, h3]

/-- C4, run: the sample call with a tag length of zero is turned down as too
short, with an empty trace and untouched buffers. -/
theorem argon2_hash_full_length_checks_witness :
    argon2_hash_full env32 zero_outlen_args =
      ⟨ARGON2_OUTPUT_TOO_SHORT, zero_outlen_args.hash, zero_outlen_args.encoded, []⟩ :=
  (argon2_hash_full_length_checks env32 zero_outlen_args).2.2.2.2
    (by decide) (by decide) (by decide) rfl

/-- What C2 says, for the lengths that fit a `uint32_t`: when the four length
checks pass, the allocation of `out`
succeeds and the secret and associated-data lengths fit a `uint32_t`, the core
is called exactly once, with a context that holds the caller's password, salt,
secret and associated data (pointers and lengths), `outlen = hashlen`, the
costs, `lanes = threads = parallelism` and the version.  When the core returns
`ARGON2_OK` and the encoding, if requested, does not fail, the function
returns `ARGON2_OK`, a non-null `hash` holds the first `hashlen` bytes of the
tag, a requested `encoded` holds what `encode_string` wrote for that context,
and a buffer that was not requested is as it was. -/
theorem argon2_hash_full_invokes_core (E : Env) (a : hash_args) (out : Bytes)
    (hl : hash_lengths_ok E a) (hfit : limits_fit E)
    (hsec : a.secretlen ≤ UINT32_MAX) (had : a.adlen ≤ UINT32_MAX)
    (hm : E.malloc 0 a.hashlen = some out) :
    let context : argon2_context :=
      { out := some out, outlen := a.hashlen, pwd := a.pwd, pwdlen := a.pwdlen,
        salt := a.salt, saltlen := a.saltlen, secret := a.secret,
        secretlen := a.secretlen, ad := a.ad, adlen := a.adlen, t_cost := a.t_cost,
        m_cost := a.m_cost, lanes := a.parallelism, threads := a.parallelism,
        version := a.version, allocate_cbk := none, free_cbk := none,
        flags := E.ARGON2_DEFAULT_FLAGS }
    let tag := (E.argon2_ctx context a.type).2
    core_calls (argon2_hash_full E a).trace = [(context, a.type)] ∧
    ((E.argon2_ctx context a.type).1 = ARGON2_OK →
      (∀ enc, a.encoded = some enc → a.encodedlen ≠ 0 →
        (E.encode_string enc a.encodedlen { context with out := some tag } a.type).1
          = ARGON2_OK) →
      (argon2_hash_full E a).ret = ARGON2_OK ∧
      (argon2_hash_full E a).hash
        = a.hash.map (fun h => tag.take a.hashlen ++ h.drop a.hashlen) ∧
      (argon2_hash_full E a).encoded
        = a.encoded.map (fun enc =>
            if a.encodedlen = 0 then enc
            else (E.encode_string enc a.encodedlen
                    { context with out := some tag } a.type).2)) := by
  intro context tag
  have hctx : hash_context E a out = context := by
    obtain ⟨h1, h2, h3, _⟩ := hl
    obtain ⟨f1, f2, f3⟩ := hfit
    simp only [hash_context, context, to_uint32_of_le (le_trans h1 f1),
      to_uint32_of_le (le_trans h2 f2), to_uint32_of_le (le_trans h3 f3),
      to_uint32_of_le hsec, to_uint32_of_le had]
  constructor
  · by_cases hc : (E.argon2_ctx (hash_context E a out) a.type).1 = ARGON2_OK
    · cases he : a.encoded with
      | none =>
        rw [hash_full_no_encoding E a out hl hm hc (Or.inl he), ← hctx]
        cases hh : a.hash <;> simp [hash_events, hh, core_calls]
      | some enc =>
        by_cases hn : a.encodedlen = 0
        · rw [hash_full_no_encoding E a out hl hm hc (Or.inr hn), ← hctx]
          cases hh : a.hash <;> simp [hash_events, hh, core_calls]
        · rw [hash_full_encoding E a out enc hl hm hc he hn, ← hctx]
          cases hh : a.hash <;> simp only [hash_events, hh] <;> split <;>
            simp [core_calls]
    · rw [hash_full_core_fail E a out hl hm hc, ← hctx]
      simp [core_calls]
  · intro hc henc
    rw [← hctx] at hc
    cases he : a.encoded with
    | none =>
      rw [hash_full_no_encoding E a out hl hm hc (Or.inl he)]
      simp [he, memcpy, tag, hctx]
    | some enc =>
      by_cases hn : a.encodedlen = 0
      · rw [hash_full_no_encoding E a out hl hm hc (Or.inr hn)]
        simp [he, hn, memcpy, tag, hctx]
      · have h2 := henc enc he hn
        rw [hash_full_encoding E a out enc hl hm hc he hn]
        simp only [hctx]
        simp [hn, memcpy, tag, h2]

/-- The sample call on the 32-bit platform calls the core once with
the caller's arguments and returns `ARGON2_OK`. -/
theorem argon2_hash_full_invokes_core_witness :
    core_calls (argon2_hash_full env32 sample_hash_args).trace
      = [(⟨some [170, 170, 170, 170], 4, some [112, 97, 115, 115], 4,
           some [115, 97, 108, 116, 115, 97, 108, 116], 8, some [107, 101, 121], 3,
           some [97, 100], 2, 2, 16, 1, 1, 19, none, none, 0⟩, 2)] ∧
    (argon2_hash_full env32 sample_hash_args).ret = ARGON2_OK :=
  ⟨(argon2_hash_full_invokes_core env32 sample_hash_args [170, 170, 170, 170]
      (by decide) (by decide) (by decide) (by decide) rfl).1,
   ((argon2_hash_full_invokes_core env32 sample_hash_args [170, 170, 170, 170]
      (by decide) (by decide) (by decide) (by decide) rfl).2 rfl
      (fun _ _ _ => by rfl)).1⟩

/-- C2: the context of the core does not always hold the caller's lengths.
On a 64-bit platform the sample call with 4 GiB of associated data passes the
four length checks, and the context the core is called with has an
associated-data length of 0, not the caller's 4294967296: `adlen` is converted
to `uint32_t` without the bound the password, salt and tag lengths get. -/
theorem argon2_hash_full_adlen_not_callers :
    huge_ad_args.representable env64 ∧ hash_lengths_ok env64 huge_ad_args ∧
    huge_ad_args.adlen = 4294967296 ∧
    (core_calls (argon2_hash_full env64 huge_ad_args).trace).map (fun c => c.1.adlen)
      = [0] :=
  ⟨by decide, by decide, rfl, rfl⟩

/-- C10: `argon2_hash_full` is not atomic on an encoding failure.  With the
length checks passed, `out` allocated and memory cleared by writing zeros:
when the core succeeds, `hash` is non-null and `encode_string` fails on the
requested `encoded` buffer, the function returns `ARGON2_ENCODING_FAIL`, the
first `encodedlen` bytes of `encoded` are zero, and `hash` still holds the
`hashlen` bytes of the tag; when the core fails, its code is returned as it is
and neither buffer is written (the calls are the allocation, the core, the
clearing and the release of `out`). -/
theorem argon2_hash_full_not_atomic (E : Env) (a : hash_args) (out : Bytes)
    (hw : Wipes E) (hl : hash_lengths_ok E a) (hm : E.malloc 0 a.hashlen = some out) :
    let context := hash_context E a out
    let code := (E.argon2_ctx context a.type).1
    let tag := (E.argon2_ctx context a.type).2
    (∀ h enc, code = ARGON2_OK → a.hash = some h → a.encoded = some enc →
      a.encodedlen ≠ 0 →
      (E.encode_string enc a.encodedlen { context with out := some tag } a.type).1
        ≠ ARGON2_OK →
      (argon2_hash_full E a).ret = ARGON2_ENCODING_FAIL ∧
      (∃ e, (argon2_hash_full E a).encoded = some e ∧
        e.take a.encodedlen = List.replicate a.encodedlen 0) ∧
      (argon2_hash_full E a).hash = some (tag.take a.hashlen ++ h.drop a.hashlen)) ∧
    (code ≠ ARGON2_OK →
      (argon2_hash_full E a).ret = code ∧
      (argon2_hash_full E a).hash = a.hash ∧
      (argon2_hash_full E a).encoded = a.encoded ∧
      (argon2_hash_full E a).trace =
        [.malloc a.hashlen (some out), .argon2_ctx context a.type,
         .clear_internal_memory tag a.hashlen, .free (some (wipe tag a.hashlen))]) := by
  intro context code tag
  constructor
  · intro h enc hc hh he hn hf
    rw [hash_full_encoding E a out enc hl hm hc he hn]
    dsimp only
    split_ifs with h1
    · simp [hh, hw _ _, take_wipe, memcpy, tag, context]
    · exact absurd (not_not.mp h1) hf
  · intro hc
    rw [hash_full_core_fail E a out hl hm hc]
    simp [hw _ _, code, context, tag]

/-- C10, run: with room for 10 characters only, the sample call returns
`ARGON2_ENCODING_FAIL`, `encoded` is ten zero bytes and `hash` holds the tag. -/
theorem argon2_hash_full_not_atomic_witness :
    (argon2_hash_full env32 short_encoded_args).ret = ARGON2_ENCODING_FAIL ∧
    (∃ e, (argon2_hash_full env32 short_encoded_args).encoded = some e ∧
      e.take 10 = List.replicate 10 0) ∧
    (argon2_hash_full env32 short_encoded_args).hash
      = some [176, 26, 132, 238] :=
  (argon2_hash_full_not_atomic env32 short_encoded_args [170, 170, 170, 170]
    (fun _ _ => rfl) (by decide) rfl).1 [0, 0, 0, 0] (List.replicate 10 85)
    rfl rfl rfl (by decide) (by decide)

/-- C5 as stated fails: on the sample call with a memory cost of 7 for one
lane, the core of the stand-in environment turns the parameters down with its
invalid-parameter code, and by then the 4-byte `out` buffer has been
allocated: the first event of the trace is that `malloc`. -/
theorem argon2_hash_full_low_memory_allocates :
    hash_lengths_ok env32 low_memory_args ∧
    low_memory_args.m_cost < 8 * low_memory_args.parallelism ∧
    (argon2_hash_full env32 low_memory_args).ret = other (-14) ∧
    mallocs (argon2_hash_full env32 low_memory_args).trace
      = [(4, some [170, 170, 170, 170])] ∧
    (argon2_hash_full env32 low_memory_args).trace.head?
      = some (.malloc 4 (some [170, 170, 170, 170])) :=
  ⟨by decide, by decide, rfl, rfl, rfl⟩

/-- C5 (amended): for a call with valid lengths and a memory cost below 8 per
lane, where the core turns such a context down with the code `rc`: the `out`
buffer of `hashlen` bytes is asked for first; if that allocation fails the
function returns `ARGON2_MEMORY_ALLOCATION_ERROR` without calling the core;
otherwise the core is called once, the function returns `rc`, `out` is the one
allocation made, it is cleared and released, and the caller's buffers are as
they were. -/
theorem argon2_hash_full_low_memory (E : Env) (a : hash_args) (rc : argon2_error_codes)
    (hl : hash_lengths_ok E a) (hlow : a.m_cost < 8 * a.parallelism)
    (hrc : rc ≠ ARGON2_OK)
    (hcore : ∀ c t, c.m_cost < 8 * c.lanes → (E.argon2_ctx c t).1 = rc) :
    (E.malloc 0 a.hashlen = none →
      argon2_hash_full E a =
        ⟨ARGON2_MEMORY_ALLOCATION_ERROR, a.hash, a.encoded, [.malloc a.hashlen none]⟩) ∧
    (∀ out, E.malloc 0 a.hashlen = some out →
      (argon2_hash_full E a).ret = rc ∧
      (argon2_hash_full E a).hash = a.hash ∧
      (argon2_hash_full E a).encoded = a.encoded ∧
      mallocs (argon2_hash_full E a).trace = [(a.hashlen, some out)] ∧
      core_calls (argon2_hash_full E a).trace = [(hash_context E a out, a.type)] ∧
      (argon2_hash_full E a).trace =
        [.malloc a.hashlen (some out), .argon2_ctx (hash_context E a out) a.type,
         .clear_internal_memory (E.argon2_ctx (hash_context E a out) a.type).2 a.hashlen,
         .free (some (E.clear_internal_memory
            (E.argon2_ctx (hash_context E a out) a.type).2 a.hashlen))]) := by
  constructor
  · intro hm
    exact hash_full_alloc_fail E a hl hm
  · intro out hm
    have hc : (E.argon2_ctx (hash_context E a out) a.type).1 = rc :=
      hcore _ _ (by simpa [hash_context] using hlow)
    have hne : (E.argon2_ctx (hash_context E a out) a.type).1 ≠ ARGON2_OK := by
      rw [hc]; exact hrc
    rw [hash_full_core_fail E a out hl hm hne]
    simp [hc, mallocs, core_calls]

/-- C5 (amended), run: the sample call with a memory cost of 7 returns the
code of the core after one allocation. -/
theorem argon2_hash_full_low_memory_witness :
    (argon2_hash_full env32 low_memory_args).ret = other (-14) ∧
    (argon2_hash_full env32 low_memory_args).hash = low_memory_args.hash ∧
    (argon2_hash_full env32 low_memory_args).encoded = low_memory_args.encoded ∧
    mallocs (argon2_hash_full env32 low_memory_args).trace
      = [(low_memory_args.hashlen, some [170, 170, 170, 170])] :=
  have h := (argon2_hash_full_low_memory env32 low_memory_args (other (-14))
    (by decide) (by decide) (by decide)
    (fun c t hc => by
      show (ref_argon2_ctx c t).1 = other (-14)
      simp [ref_argon2_ctx, hc])).2 [170, 170, 170, 170] rfl
  ⟨h.1, h.2.1, h.2.2.1, h.2.2.2.1⟩

/-! ## Paths of argon2_verify_full -/

theorem verify_full_alloc_fail (E : Env) (a : verify_args) (enc : Bytes)
    (hp : verify_prechecks_ok E a enc)
    (hm : E.malloc 0 (to_uint32 (strlen enc)) = none ∨
          E.malloc 1 (to_uint32 (strlen enc)) = none) :
    argon2_verify_full E a =
      ⟨ARGON2_MEMORY_ALLOCATION_ERROR,
        decode_mallocs E enc ++
        [.free (E.malloc 0 (to_uint32 (strlen enc))),
         .free (E.malloc 1 (to_uint32 (strlen enc))), .free none]⟩ := by
  obtain ⟨h1, h2, h3⟩ := hp
  cases h0 : E.malloc 0 (to_uint32 (strlen enc)) <;>
    cases h1' : E.malloc 1 (to_uint32 (strlen enc)) <;>
    simp_all [argon2_verify_full, decode_mallocs, not_lt.mpr h1, not_lt.mpr h3]

theorem verify_full_decode_fail (E : Env) (a : verify_args) (enc salt out : Bytes)
    (hp : verify_prechecks_ok E a enc)
    (hs : E.malloc 0 (to_uint32 (strlen enc)) = some salt)
    (ho : E.malloc 1 (to_uint32 (strlen enc)) = some out)
    (hd : (E.decode_string (decode_input E a enc salt out) enc a.type).1 ≠ ARGON2_OK) :
    argon2_verify_full E a =
      ⟨(E.decode_string (decode_input E a enc salt out) enc a.type).1,
        decode_mallocs E enc ++
        [.decode_string (decode_input E a enc salt out) enc a.type,
         .free (decoded E a enc salt out).salt, .free (decoded E a enc salt out).out,
         .free none]⟩ := by
  obtain ⟨h1, h2, h3⟩ := hp
  unfold decode_input at hd
  simp [argon2_verify_full, decode_mallocs, decoded, decode_input, not_lt.mpr h1,
    not_lt.mpr h3, h2, hs, ho, hd]

theorem verify_full_alloc_fail_late (E : Env) (a : verify_args) (enc salt out : Bytes)
    (hp : verify_prechecks_ok E a enc)
    (hs : E.malloc 0 (to_uint32 (strlen enc)) = some salt)
    (ho : E.malloc 1 (to_uint32 (strlen enc)) = some out)
    (hd : (E.decode_string (decode_input E a enc salt out) enc a.type).1 = ARGON2_OK)
    (hf : E.malloc 2 (decoded E a enc salt out).outlen = none) :
    argon2_verify_full E a =
      ⟨ARGON2_MEMORY_ALLOCATION_ERROR,
        decode_mallocs E enc ++
        [.decode_string (decode_input E a enc salt out) enc a.type,
         .malloc (decoded E a enc salt out).outlen none,
         .free (decoded E a enc salt out).salt, .free none,
         .free (decoded E a enc salt out).out]⟩ := by
  obtain ⟨h1, h2, h3⟩ := hp
  unfold decode_input at hd
  unfold decoded decode_input at hf
  simp [argon2_verify_full, decode_mallocs, decoded, decode_input, not_lt.mpr h1,
    not_lt.mpr h3, h2, hs, ho, hd, hf]

theorem verify_full_core (E : Env) (a : verify_args) (enc salt out fresh : Bytes)
    (hp : verify_prechecks_ok E a enc)
    (hs : E.malloc 0 (to_uint32 (strlen enc)) = some salt)
    (ho : E.malloc 1 (to_uint32 (strlen enc)) = some out)
    (hd : (E.decode_string (decode_input E a enc salt out) enc a.type).1 = ARGON2_OK)
    (hf : E.malloc 2 (decoded E a enc salt out).outlen = some fresh) :
    argon2_verify_full E a =
      ⟨(E.argon2_verify_ctx (verify_context a (decoded E a enc salt out) fresh)
          (decoded E a enc salt out).out a.type).1,
        decode_mallocs E enc ++
        [.decode_string (decode_input E a enc salt out) enc a.type,
         .malloc (decoded E a enc salt out).outlen (some fresh),
         .argon2_verify_ctx (verify_context a (decoded E a enc salt out) fresh)
            (decoded E a enc salt out).out a.type,
         .free (decoded E a enc salt out).salt,
         .free (some (E.argon2_verify_ctx (verify_context a (decoded E a enc salt out) fresh)
            (decoded E a enc salt out).out a.type).2),
         .free (decoded E a enc salt out).out]⟩ := by
  obtain ⟨h1, h2, h3⟩ := hp
  unfold decode_input at hd
  unfold decoded decode_input at hf
  simp [argon2_verify_full, decode_mallocs, decoded, decode_input, not_lt.mpr h1,
    not_lt.mpr h3, h2, hs, ho, hd, hf]

/-! ## Claims on argon2_verify_full -/

/-- What C3 says, for the lengths that fit a `uint32_t` and a decoder that
leaves the password fields alone: when the checks before allocation pass, the three
allocations succeed, `decode_string` returns `ARGON2_OK` without touching the
password fields, and the secret and associated-data lengths fit a `uint32_t`,
the core verification is called exactly once: with the salt, the salt length,
the parameters and the tag length `decode_string` left, with the caller's
password, secret and associated data (pointers and lengths), with a fresh
`out` asked for at exactly the decoded tag length, and with the decoded tag as
the desired result.  The function returns the result of that call. -/
theorem argon2_verify_full_invokes_core (E : Env) (a : verify_args)
    (enc salt out fresh : Bytes)
    (hp : verify_prechecks_ok E a enc) (hfit : E.ARGON2_MAX_PWD_LENGTH ≤ UINT32_MAX)
    (hsec : a.secretlen ≤ UINT32_MAX) (had : a.adlen ≤ UINT32_MAX)
    (hs : E.malloc 0 (to_uint32 (strlen enc)) = some salt)
    (ho : E.malloc 1 (to_uint32 (strlen enc)) = some out)
    (hd : (E.decode_string (decode_input E a enc salt out) enc a.type).1 = ARGON2_OK)
    (hpwd : (decoded E a enc salt out).pwd = (decode_input E a enc salt out).pwd ∧
      (decoded E a enc salt out).pwdlen = (decode_input E a enc salt out).pwdlen)
    (hf : E.malloc 2 (decoded E a enc salt out).outlen = some fresh) :
    let d := decoded E a enc salt out
    let context : argon2_context :=
      { out := some fresh, outlen := d.outlen, pwd := a.pwd, pwdlen := a.pwdlen,
        salt := d.salt, saltlen := d.saltlen, secret := a.secret,
        secretlen := a.secretlen, ad := a.ad, adlen := a.adlen, t_cost := d.t_cost,
        m_cost := d.m_cost, lanes := d.lanes, threads := d.threads,
        version := d.version, allocate_cbk := d.allocate_cbk, free_cbk := d.free_cbk,
        flags := d.flags }
    verify_calls (argon2_verify_full E a).trace = [(context, d.out, a.type)] ∧
    mallocs (argon2_verify_full E a).trace
      = [(strlen enc, some salt), (strlen enc, some out), (d.outlen, some fresh)] ∧
    (argon2_verify_full E a).ret = (E.argon2_verify_ctx context d.out a.type).1 := by
  intro d context
  have hctx : verify_context a (decoded E a enc salt out) fresh = context := by
    obtain ⟨p1, p2⟩ := hpwd
    simp only [decode_input, decode_context] at p1 p2
    simp only [verify_context, context, d, to_uint32_of_le hsec, to_uint32_of_le had,
      p1, p2, to_uint32_of_le (le_trans hp.1 hfit)]
  rw [verify_full_core E a enc salt out fresh hp hs ho hd hf, hctx]
  rw [to_uint32_of_le hp.2.2] at hs ho
  simp [verify_calls, mallocs, decode_mallocs, hs, ho, to_uint32_of_le hp.2.2, d]

/-- Verification of the sample record calls the core verification
once and returns its result, `ARGON2_OK`. -/
theorem argon2_verify_full_invokes_core_witness :
    verify_calls (argon2_verify_full env32 sample_verify_args).trace
      = [(⟨some [170, 170, 170, 170], 4, some [112, 97, 115, 115], 4,
           some [115, 97, 108, 116, 115, 97, 108, 116, 170, 170, 170, 170, 170, 170,
             170, 170, 170, 170, 170], 8, some [107, 101, 121], 3, some [97, 100], 2,
           2, 16, 1, 1, 19, none, none, 0⟩,
          some [176, 26, 132, 238, 170, 170, 170, 170, 170, 170, 170, 170, 170, 170,
            170, 170, 170, 170, 170], 2)] ∧
    (argon2_verify_full env32 sample_verify_args).ret = ARGON2_OK :=
  have h := argon2_verify_full_invokes_core env32 sample_verify_args sample_record
    (List.replicate 19 170) (List.replicate 19 170) [170, 170, 170, 170]
    (by decide) (by decide) (by decide) (by decide) rfl rfl rfl ⟨rfl, rfl⟩ rfl
  ⟨h.1, h.2.2⟩

/-- C3: the context of the core verification does not always hold the
caller's lengths.  On a 64-bit platform verifying the sample record with a
secret of 4 GiB passes every check, and the context the core verification is
called with has a secret length of 0, not the caller's 4294967296: `secretlen`
is converted to `uint32_t` without the bound the password length gets. -/
theorem argon2_verify_full_secretlen_not_callers :
    verify_prechecks_ok env64 huge_secret_verify_args sample_record ∧
    huge_secret_verify_args.secretlen = 4294967296 ∧
    huge_secret_verify_args.secretlen ≤ env64.SIZE_MAX ∧
    (verify_calls (argon2_verify_full env64 huge_secret_verify_args).trace).map
      (fun c => c.1.secretlen) = [0] :=
  ⟨by decide, rfl, by decide, rfl⟩

/-- C6 as stated fails: the stand-in decoder turns the empty string down with
`ARGON2_DECODING_FAIL` whatever the context, yet with an allocator for which a
request for zero bytes gets NULL, `argon2_verify_full` on the empty string
returns `ARGON2_MEMORY_ALLOCATION_ERROR` and never calls the decoder. -/
theorem argon2_verify_full_empty_record_alloc_error :
    (∀ c, (env32_null_on_zero.decode_string c [0] 2).1 = ARGON2_DECODING_FAIL) ∧
    empty_record_args.pwdlen ≤ env32_null_on_zero.ARGON2_MAX_PWD_LENGTH ∧
    argon2_verify_full env32_null_on_zero empty_record_args =
      ⟨ARGON2_MEMORY_ALLOCATION_ERROR,
        [.malloc 0 none, .malloc 0 none, .free none, .free none, .free none]⟩ :=
  ⟨fun _ => rfl, by decide, rfl⟩

/-- C6 (amended): for a password within the length limit, a NULL `encoded` and
an `encoded` longer than `UINT32_MAX` return `ARGON2_DECODING_FAIL` with an
empty trace; and for a non-null `encoded` for which the two allocations
succeed and `decode_string` returns a code other than `ARGON2_OK`,
`argon2_verify_full` returns that code and calls neither the core nor the
core verification.  So where `decode_string` answers `ARGON2_DECODING_FAIL`
the function returns `ARGON2_DECODING_FAIL`, not `ARGON2_OK` and not
`ARGON2_VERIFY_MISMATCH`. -/
theorem argon2_verify_full_rejected_record (E : Env) (a : verify_args)
    (hpwd : a.pwdlen ≤ E.ARGON2_MAX_PWD_LENGTH) :
    (a.encoded = none → argon2_verify_full E a = ⟨ARGON2_DECODING_FAIL, []⟩) ∧
    (∀ enc, a.encoded = some enc → strlen enc > UINT32_MAX →
      argon2_verify_full E a = ⟨ARGON2_DECODING_FAIL, []⟩) ∧
    (∀ enc salt out, a.encoded = some enc → strlen enc ≤ UINT32_MAX →
      E.malloc 0 (strlen enc) = some salt → E.malloc 1 (strlen enc) = some out →
      (E.decode_string (decode_input E a enc salt out) enc a.type).1 ≠ ARGON2_OK →
      (argon2_verify_full E a).ret
        = (E.decode_string (decode_input E a enc salt out) enc a.type).1 ∧
      core_calls (argon2_verify_full E a).trace = [] ∧
      verify_calls (argon2_verify_full E a).trace = [] ∧
      ((E.decode_string (decode_input E a enc salt out) enc a.type).1
          = ARGON2_DECODING_FAIL →
        (argon2_verify_full E a).ret = ARGON2_DECODING_FAIL ∧
        (argon2_verify_full E a).ret ≠ ARGON2_OK ∧
        (argon2_verify_full E a).ret ≠ ARGON2_VERIFY_MISMATCH)) := by
  refine ⟨?_, ?_, ?_⟩
  · intro he
    simp [argon2_verify_full, not_lt.mpr hpwd, he]
  · intro enc he hlen
    simp [argon2_verify_full, not_lt.mpr hpwd, he, hlen]
  · intro enc salt out he hlen hs ho hd
    have hp : verify_prechecks_ok E a enc := ⟨hpwd, he, hlen⟩
    rw [← to_uint32_of_le hlen] at hs ho
    rw [verify_full_decode_fail E a enc salt out hp hs ho hd]
    refine ⟨rfl, ?_, ?_, ?_⟩
    · simp [decode_mallocs, core_calls]
    · simp [decode_mallocs, verify_calls]
    · intro h
      simp [h]

/-- C6 (amended), run: a record cut off inside the salt is turned down with
`ARGON2_DECODING_FAIL` and no call of the core. -/
theorem argon2_verify_full_rejected_record_witness :
    (argon2_verify_full env32 truncated_record_args).ret = ARGON2_DECODING_FAIL ∧
    core_calls (argon2_verify_full env32 truncated_record_args).trace = [] ∧
    verify_calls (argon2_verify_full env32 truncated_record_args).trace = [] :=
  have h := (argon2_verify_full_rejected_record env32 truncated_record_args
    (by decide)).2.2 [3, 20, 17, 3, 2, 9, 116, 98, 0] (List.replicate 8 170)
    (List.replicate 8 170) rfl (by decide) rfl rfl (by decide)
  ⟨(h.2.2.2 rfl).1, h.2.1, h.2.2.1⟩

theorem verify_full_never_clears (E : Env) (a : verify_args) :
    clears (argon2_verify_full E a).trace = [] := by
  by_cases h1 : a.pwdlen > E.ARGON2_MAX_PWD_LENGTH
  · simp [argon2_verify_full, h1, clears]
  cases he : a.encoded with
  | none => simp [argon2_verify_full, h1, he, clears]
  | some enc =>
    by_cases h3 : strlen enc > UINT32_MAX
    · simp [argon2_verify_full, h1, he, h3, clears]
    have hp : verify_prechecks_ok E a enc := ⟨not_lt.mp h1, he, not_lt.mp h3⟩
    cases hs : E.malloc 0 (to_uint32 (strlen enc)) with
    | none =>
      rw [verify_full_alloc_fail E a enc hp (Or.inl hs)]
      simp [clears, decode_mallocs]
    | some salt =>
      cases ho : E.malloc 1 (to_uint32 (strlen enc)) with
      | none =>
        rw [verify_full_alloc_fail E a enc hp (Or.inr ho)]
        simp [clears, decode_mallocs]
      | some out =>
        by_cases hd : (E.decode_string (decode_input E a enc salt out) enc a.type).1
            = ARGON2_OK
        · cases hf : E.malloc 2 (decoded E a enc salt out).outlen with
          | none =>
            rw [verify_full_alloc_fail_late E a enc salt out hp hs ho hd hf]
            simp [clears, decode_mallocs]
          | some fresh =>
            rw [verify_full_core E a enc salt out fresh hp hs ho hd hf]
            simp [clears, decode_mallocs]
        · rw [verify_full_decode_fail E a enc salt out hp hs ho hd]
          simp [clears, decode_mallocs]

theorem hash_full_frees_cleared (E : Env) (a : hash_args) :
    ∀ p ∈ frees (argon2_hash_full E a).trace,
      ∃ v, p = some (E.clear_internal_memory v a.hashlen) := by
  by_cases hl : hash_lengths_ok E a
  · cases hm : E.malloc 0 a.hashlen with
    | none =>
      rw [hash_full_alloc_fail E a hl hm]
      simp [frees]
    | some out =>
      by_cases hc : (E.argon2_ctx (hash_context E a out) a.type).1 = ARGON2_OK
      · cases he : a.encoded with
        | none =>
          rw [hash_full_no_encoding E a out hl hm hc (Or.inl he)]
          cases hh : a.hash <;> (simp [frees, hash_events, hh]; exact ⟨_, rfl⟩)
        | some enc =>
          by_cases hn : a.encodedlen = 0
          · rw [hash_full_no_encoding E a out hl hm hc (Or.inr hn)]
            cases hh : a.hash <;> (simp [frees, hash_events, hh]; exact ⟨_, rfl⟩)
          · rw [hash_full_encoding E a out enc hl hm hc he hn]
            dsimp only
            split_ifs <;> cases hh : a.hash <;> (simp [frees, hash_events, hh]; exact ⟨_, rfl⟩)
      · rw [hash_full_core_fail E a out hl hm hc]
        simp [frees]
        exact ⟨_, rfl⟩
  · unfold hash_lengths_ok at hl
    by_cases h1 : a.pwdlen > E.ARGON2_MAX_PWD_LENGTH
    · simp [argon2_hash_full, h1, frees]
    by_cases h2 : a.saltlen > E.ARGON2_MAX_SALT_LENGTH
    · simp [argon2_hash_full, h1, h2, frees]
    by_cases h3 : a.hashlen > E.ARGON2_MAX_OUTLEN
    · simp [argon2_hash_full, h1, h2, h3, frees]
    by_cases h4 : a.hashlen < E.ARGON2_MIN_OUTLEN
    · simp [argon2_hash_full, h1, h2, h3, h4, frees]
    exact absurd ⟨not_lt.mp h1, not_lt.mp h2, not_lt.mp h3, not_lt.mp h4⟩ hl

/-- C8: `argon2_verify_full` releases its tag buffers without clearing them.
No call of it, on any path, calls `clear_internal_memory`.  Verifying the
sample record with the right password returns `ARGON2_OK`, and the three
regions handed to `free` still hold the decoded salt, the recomputed tag
176 26 132 238 and the decoded tag. -/
theorem argon2_verify_full_frees_uncleared :
    (∀ E a, clears (argon2_verify_full E a).trace = []) ∧
    (argon2_verify_full env32 sample_verify_args).ret = ARGON2_OK ∧
    frees (argon2_verify_full env32 sample_verify_args).trace
      = [some [115, 97, 108, 116, 115, 97, 108, 116, 170, 170, 170, 170, 170, 170,
           170, 170, 170, 170, 170],
         some [176, 26, 132, 238],
         some [176, 26, 132, 238, 170, 170, 170, 170, 170, 170, 170, 170, 170, 170,
           170, 170, 170, 170, 170]] :=
  ⟨verify_full_never_clears, rfl, rfl⟩

/-- C9: the secret and associated-data lengths are not bounded before they are
converted.  On a 64-bit platform the sample call of `argon2_hash_full` with a
secret of 4 GiB passes the four length checks, allocates, calls the core with
a secret length of 0 (4294967296 reduced modulo 2^32) and returns
`ARGON2_OK`; and `argon2_verify_full` on the sample record with 4 GiB of
associated data allocates three times and calls the core verification with an
associated-data length of 0. -/
theorem argon2_hash_full_secretlen_reduced :
    huge_secret_args.representable env64 ∧
    huge_secret_args.secretlen = 4294967296 ∧
    (argon2_hash_full env64 huge_secret_args).ret = ARGON2_OK ∧
    mallocs (argon2_hash_full env64 huge_secret_args).trace
      = [(4, some [170, 170, 170, 170])] ∧
    (core_calls (argon2_hash_full env64 huge_secret_args).trace).map
      (fun c => c.1.secretlen) = [0] ∧
    huge_ad_verify_args.adlen = 4294967296 ∧
    huge_ad_verify_args.adlen ≤ env64.SIZE_MAX ∧
    (mallocs (argon2_verify_full env64 huge_ad_verify_args).trace).map
      (fun m => m.1) = [19, 19, 4] ∧
    (verify_calls (argon2_verify_full env64 huge_ad_verify_args).trace).map
      (fun c => c.1.adlen) = [0] :=
  ⟨by decide, rfl, rfl, rfl, rfl, rfl, by decide, rfl, rfl⟩

/-! ## Hashing, then verifying -/

theorem hash_full_ok_lengths (E : Env) (a : hash_args)
    (hret : (argon2_hash_full E a).ret = ARGON2_OK) : hash_lengths_ok E a := by
  unfold hash_lengths_ok
  by_cases h1 : a.pwdlen > E.ARGON2_MAX_PWD_LENGTH
  · simp [argon2_hash_full, h1] at hret
  by_cases h2 : a.saltlen > E.ARGON2_MAX_SALT_LENGTH
  · simp [argon2_hash_full, h1, h2] at hret
  by_cases h3 : a.hashlen > E.ARGON2_MAX_OUTLEN
  · simp [argon2_hash_full, h1, h2, h3] at hret
  by_cases h4 : a.hashlen < E.ARGON2_MIN_OUTLEN
  · simp [argon2_hash_full, h1, h2, h3, h4] at hret
  exact ⟨not_lt.mp h1, not_lt.mp h2, not_lt.mp h3, not_lt.mp h4⟩

theorem hash_full_ok_core (E : Env) (a : hash_args) (out : Bytes)
    (hm : E.malloc 0 a.hashlen = some out)
    (hret : (argon2_hash_full E a).ret = ARGON2_OK) :
    (E.argon2_ctx (hash_context E a out) a.type).1 = ARGON2_OK := by
  by_contra hc
  rw [hash_full_core_fail E a out (hash_full_ok_lengths E a hret) hm hc] at hret
  exact hc hret

theorem hash_full_ok_encoded (E : Env) (a : hash_args) (out enc : Bytes)
    (hm : E.malloc 0 a.hashlen = some out) (he : a.encoded = some enc)
    (hn : a.encodedlen ≠ 0) (hret : (argon2_hash_full E a).ret = ARGON2_OK) :
    (argon2_hash_full E a).encoded
      = some (E.encode_string enc a.encodedlen (rendered_context E a out) a.type).2 := by
  have hl := hash_full_ok_lengths E a hret
  have hc := hash_full_ok_core E a out hm hret
  rw [hash_full_encoding E a out enc hl hm hc he hn] at hret ⊢
  dsimp only at hret ⊢
  split_ifs at hret ⊢ with h1
  rfl

theorem getD_take (p : Ptr) (n : Nat) :
    (p.getD []).take n = (p.map (fun b => b.take n)).getD [] := by
  cases p <;> simp

theorem seed_input_of_core_view (c1 c2 : argon2_context) (type : argon2_type)
    (h : core_view c1 = core_view c2) : seed_input c1 type = seed_input c2 type := by
  have e1 : c1.lanes = c2.lanes := by
    have h0 := congrArg argon2_context.lanes h
    exact h0
  have e2 : c1.outlen = c2.outlen := by
    have h0 := congrArg argon2_context.outlen h
    exact h0
  have e3 : c1.m_cost = c2.m_cost := by
    have h0 := congrArg argon2_context.m_cost h
    exact h0
  have e4 : c1.t_cost = c2.t_cost := by
    have h0 := congrArg argon2_context.t_cost h
    exact h0
  have e5 : c1.version = c2.version := by
    have h0 := congrArg argon2_context.version h
    exact h0
  have e6 : c1.pwdlen = c2.pwdlen := by
    have h0 := congrArg argon2_context.pwdlen h
    exact h0
  have e7 : c1.saltlen = c2.saltlen := by
    have h0 := congrArg argon2_context.saltlen h
    exact h0
  have e8 : c1.secretlen = c2.secretlen := by
    have h0 := congrArg argon2_context.secretlen h
    exact h0
  have e9 : c1.adlen = c2.adlen := by
    have h0 := congrArg argon2_context.adlen h
    exact h0
  have p1 : c1.pwd.map (fun b => b.take c1.pwdlen) = c2.pwd.map (fun b => b.take c2.pwdlen) := by
    have h0 := congrArg argon2_context.pwd h
    exact h0
  have p2 : c1.salt.map (fun b => b.take c1.saltlen)
      = c2.salt.map (fun b => b.take c2.saltlen) := by
    have h0 := congrArg argon2_context.salt h
    exact h0
  have p3 : c1.secret.map (fun b => b.take c1.secretlen)
      = c2.secret.map (fun b => b.take c2.secretlen) := by
    have h0 := congrArg argon2_context.secret h
    exact h0
  have p4 : c1.ad.map (fun b => b.take c1.adlen) = c2.ad.map (fun b => b.take c2.adlen) := by
    have h0 := congrArg argon2_context.ad h
    exact h0
  simp only [seed_input, getD_take]
  rw [p1, p2, p3, p4, e1, e2, e3, e4, e5, e6, e7, e8, e9]

theorem ref_core_deterministic (size_max : Nat) (heap : Nat → Nat → Ptr) :
    CoreDeterministic (ref_env size_max heap) := by
  intro c1 c2 type h
  have e1 : c1.lanes = c2.lanes := by
    have h0 := congrArg argon2_context.lanes h
    exact h0
  have e2 : c1.outlen = c2.outlen := by
    have h0 := congrArg argon2_context.outlen h
    exact h0
  have e3 : c1.m_cost = c2.m_cost := by
    have h0 := congrArg argon2_context.m_cost h
    exact h0
  have hs := seed_input_of_core_view c1 c2 type h
  show (ref_argon2_ctx c1 type).1 = (ref_argon2_ctx c2 type).1 ∧
    ((ref_argon2_ctx c1 type).1 = ARGON2_OK →
      (ref_argon2_ctx c1 type).2.take c1.outlen = (ref_argon2_ctx c2 type).2.take c2.outlen)
  unfold ref_argon2_ctx ref_tag
  rw [e1, e2, e3, hs]
  by_cases hlow : c2.m_cost < 8 * c2.lanes <;> simp [hlow]

theorem core_view_of_recovers (E : Env) (a : hash_args) (v : verify_args)
    (out fresh : Bytes) (given d : argon2_context)
    (h1 : v.secret = a.secret) (h2 : v.secretlen = a.secretlen)
    (h3 : v.ad = a.ad) (h4 : v.adlen = a.adlen)
    (h5 : given.pwd = a.pwd) (h6 : given.pwdlen = to_uint32 a.pwdlen)
    (hrec : Recovers (rendered_context E a out) given d) :
    core_view (verify_context v d fresh) = core_view (hash_context E a out) := by
  obtain ⟨r1, r2, r3, _, r5, r6, r7, r8, r9, r10, r11, r12, r13, r14⟩ := hrec
  rw [r1] at r2
  rw [h5] at r13
  rw [h6] at r14
  simp only [rendered_context, hash_context] at r1 r2 r3 r5 r6 r7 r8 r9 r10 r11 r12
  simp only [core_view, verify_context, hash_context, h1, h2, h3, h4, r1, r2, r3, r5, r6,
    r7, r8, r9, r10, r11, r12, r13, r14, Option.map_some']

/-- C1 (amended): round trip for records of at most `UINT32_MAX` characters.
Let a call of `argon2_hash_full` that asked for the encoded record return
`ARGON2_OK`, and let `e` be the record `encode_string` wrote.  Assume the core
verification recomputes and compares, the core is a deterministic function of
its context, the allocations succeed, `e` is not longer than `UINT32_MAX`, and
`decode_string` returns `ARGON2_OK` on it and recovers the salt, the tag and
the parameters rendered.  Then `e` is what the call left in `encoded`, and
`argon2_verify_full` on it, with the same password, secret, associated data
and variant, returns `ARGON2_OK`. -/
theorem argon2_round_trip (E : Env) (a : hash_args) (out enc0 salt out2 fresh : Bytes)
    (hv : VerifyRecomputes E) (hcd : CoreDeterministic E)
    (hm : E.malloc 0 a.hashlen = some out)
    (he : a.encoded = some enc0) (hn : a.encodedlen ≠ 0)
    (hret : (argon2_hash_full E a).ret = ARGON2_OK) :
    let e := (E.encode_string enc0 a.encodedlen (rendered_context E a out) a.type).2
    let v := verify_of E a a.secret a.secretlen a.ad a.adlen
    strlen e ≤ UINT32_MAX →
    E.malloc 0 (to_uint32 (strlen e)) = some salt →
    E.malloc 1 (to_uint32 (strlen e)) = some out2 →
    (E.decode_string (decode_input E v e salt out2) e a.type).1 = ARGON2_OK →
    Recovers (rendered_context E a out) (decode_input E v e salt out2)
      (decoded E v e salt out2) →
    E.malloc 2 (decoded E v e salt out2).outlen = some fresh →
    (argon2_hash_full E a).encoded = some e ∧
    (argon2_verify_full E v).ret = ARGON2_OK := by
  intro e v hstr hs ho hd hrec hf
  have hl := hash_full_ok_lengths E a hret
  have hc := hash_full_ok_core E a out hm hret
  have henc : (argon2_hash_full E a).encoded = some e :=
    hash_full_ok_encoded E a out enc0 hm he hn hret
  refine ⟨henc, ?_⟩
  have hp : verify_prechecks_ok E v e := ⟨hl.1, henc, hstr⟩
  rw [verify_full_core E v e salt out2 fresh hp hs ho hd hf, hv]
  have hview : core_view (verify_context v (decoded E v e salt out2) fresh)
      = core_view (hash_context E a out) :=
    core_view_of_recovers E a v out fresh _ _ rfl rfl rfl rfl rfl rfl hrec
  have r4 := hrec.2.2.2.1
  obtain ⟨hcode, htag⟩ := hcd _ _ a.type hview
  have hc2 : (E.argon2_ctx (verify_context v (decoded E v e salt out2) fresh) a.type).1
      = ARGON2_OK := hcode.trans hc
  have htag2 := htag hc2
  have hdes : ((decoded E v e salt out2).out.getD []).take (decoded E v e salt out2).outlen
      = (E.argon2_ctx (hash_context E a out) a.type).2.take (hash_context E a out).outlen := by
    rw [getD_take, r4]
    simp [rendered_context]
  have hout : (verify_context v (decoded E v e salt out2) fresh).outlen
      = (decoded E v e salt out2).outlen := rfl
  show (verify_ctx_model E.argon2_ctx (verify_context v (decoded E v e salt out2) fresh)
    (decoded E v e salt out2).out a.type).1 = ARGON2_OK
  unfold verify_ctx_model
  rw [if_neg (not_not.mpr hc2), hout, hdes, ← htag2, hout, if_pos rfl]

/-- C1 (amended), run: the sample call writes the sample record, and verifying it with
the same password, secret and associated data returns `ARGON2_OK`. -/
theorem argon2_round_trip_witness :
    (argon2_hash_full env32 sample_hash_args).encoded = some sample_record ∧
    (argon2_verify_full env32
      (verify_of env32 sample_hash_args (some [107, 101, 121]) 3 (some [97, 100]) 2)).ret
      = ARGON2_OK :=
  argon2_round_trip env32 sample_hash_args [170, 170, 170, 170] (List.replicate 24 0)
    (List.replicate 19 170) (List.replicate 19 170) [170, 170, 170, 170]
    (fun _ _ _ => rfl) (ref_core_deterministic _ _) rfl rfl (by decide) rfl
    (by decide) rfl rfl rfl (by decide) rfl

/-! ## Records longer than UINT32_MAX -/

theorem strlen_append_nul (l1 l2 : Bytes) (h : ∀ x ∈ l1, x ≠ 0) :
    strlen (l1 ++ 0 :: l2) = l1.length := by
  unfold strlen
  rw [List.takeWhile_append_of_pos (by intro a ha; simpa using h a ha)]
  simp

theorem ref_render_length (c : argon2_context) (type : argon2_type) :
    (ref_render c type).length
      = min c.saltlen (c.salt.getD []).length + min c.outlen (c.out.getD []).length + 8 := by
  simp [ref_render]
  omega

theorem takeWhile_ref_record (dst : Bytes) (c : argon2_context) (type : argon2_type) :
    (memcpy dst (ref_render c type) (ref_render c type).length).takeWhile (fun b => b != 0)
      = (type + 1) :: (c.version + 1) :: (c.m_cost + 1) :: (c.t_cost + 1) :: (c.lanes + 1)
        :: (c.saltlen + 1) ::
        (((c.salt.getD []).take c.saltlen).map (fun b => b + 1)
          ++ (c.outlen + 1) :: ((c.out.getD []).take c.outlen).map (fun b => b + 1)) := by
  unfold memcpy
  rw [List.take_length]
  have hr : ref_render c type =
      ((type + 1) :: (c.version + 1) :: (c.m_cost + 1) :: (c.t_cost + 1) :: (c.lanes + 1)
        :: (c.saltlen + 1) ::
        (((c.salt.getD []).take c.saltlen).map (fun b => b + 1)
          ++ (c.outlen + 1) :: ((c.out.getD []).take c.outlen).map (fun b => b + 1)))
        ++ [0] := by
    simp [ref_render]
  rw [hr, List.append_assoc, List.singleton_append, List.takeWhile_append_of_pos]
  · simp
  · intro x hx
    simp only [List.mem_append, List.mem_map, List.mem_cons] at hx
    rcases hx with rfl | rfl | rfl | rfl | rfl | rfl | ⟨b, _, rfl⟩ | rfl | ⟨b, _, rfl⟩ <;> simp

theorem strlen_ref_record (dst : Bytes) (c : argon2_context) (type : argon2_type) :
    strlen (memcpy dst (ref_render c type) (ref_render c type).length)
      = min c.saltlen (c.salt.getD []).length + min c.outlen (c.out.getD []).length + 7 := by
  unfold strlen
  rw [takeWhile_ref_record]
  simp
  omega

theorem map_pred_map_succ (l : Bytes) :
    (l.map (fun b => b + 1)).map (fun b => b - 1) = l := by
  simp [List.map_map, Function.comp_def]

theorem ref_decode_recovers (flags : Nat) (c c0 : argon2_context) (type : argon2_type)
    (dst s o : Bytes) (hs : c.salt = some s) (ho : c.out = some o)
    (hsl : c.saltlen ≤ s.length) (hol : c.outlen ≤ o.length)
    (hr1 : c.saltlen ≤ c0.saltlen) (hr2 : c.outlen ≤ c0.outlen)
    (hm : 8 * c.lanes ≤ c.m_cost) (ht : c.threads = c.lanes)
    (hc1 : c.allocate_cbk = none) (hc2 : c.free_cbk = none) (hf : c.flags = flags) :
    (ref_decode_string flags c0
      (memcpy dst (ref_render c type) (ref_render c type).length) type).1 = ARGON2_OK ∧
    Recovers c c0 (ref_decode_string flags c0
      (memcpy dst (ref_render c type) (ref_render c type).length) type).2 := by
  have hls : ((s.take c.saltlen).map (fun b => b + 1)).length = c.saltlen := by
    simp [hsl]
  have hlo : ((o.take c.outlen).map (fun b => b + 1)).length = c.outlen := by
    simp [hol]
  unfold ref_decode_string
  rw [takeWhile_ref_record]
  simp only [hs, ho, Option.getD_some, Nat.add_sub_cancel]
  rw [if_neg (by simp [hls, hlo]; omega)]
  rw [List.drop_left' hls]
  simp only []
  rw [if_neg (by simp [hlo]; omega)]
  simp only [List.take_left' hls, map_pred_map_succ]
  refine ⟨trivial, ?_⟩
  unfold Recovers
  simp [hs, ho, memcpy, ht, hc1, hc2, hf, hsl, hol]

theorem hash_full_encoded_ok (E : Env) (a : hash_args) (out enc : Bytes)
    (hl : hash_lengths_ok E a) (hm : E.malloc 0 a.hashlen = some out)
    (hc : (E.argon2_ctx (hash_context E a out) a.type).1 = ARGON2_OK)
    (he : a.encoded = some enc) (hn : a.encodedlen ≠ 0)
    (hr : (E.encode_string enc a.encodedlen (rendered_context E a out) a.type).1
      = ARGON2_OK) :
    (argon2_hash_full E a).ret = ARGON2_OK ∧
    (argon2_hash_full E a).encoded
      = some (E.encode_string enc a.encodedlen (rendered_context E a out) a.type).2 := by
  rw [hash_full_encoding E a out enc hl hm hc he hn]
  dsimp only
  split_ifs with h
  · exact absurd hr h
  · exact ⟨rfl, rfl⟩

theorem verify_full_too_long (E : Env) (a : verify_args) (enc : Bytes)
    (hpwd : a.pwdlen ≤ E.ARGON2_MAX_PWD_LENGTH) (he : a.encoded = some enc)
    (hlen : strlen enc > UINT32_MAX) :
    argon2_verify_full E a = ⟨ARGON2_DECODING_FAIL, []⟩ := by
  simp [argon2_verify_full, not_lt.mpr hpwd, he, hlen]

theorem long_salt_record (n : Nat) (h1 : 4294967289 ≤ n) (h2 : n ≤ 4294967295)
    (secret : Ptr) (secretlen : Nat) (ad : Ptr) (adlen : Nat) :
    (argon2_hash_full env64 (salt_args n)).ret = ARGON2_OK ∧
    (∃ e, (argon2_hash_full env64 (salt_args n)).encoded = some e ∧
      UINT32_MAX < strlen e ∧
      ∀ c0 : argon2_context, n ≤ c0.saltlen → 4 ≤ c0.outlen →
        (env64.decode_string c0 e 2).1 = ARGON2_OK ∧
        Recovers (rendered_context env64 (salt_args n) [170, 170, 170, 170]) c0
          (env64.decode_string c0 e 2).2) ∧
    argon2_verify_full env64 (verify_of env64 (salt_args n) secret secretlen ad adlen)
      = ⟨ARGON2_DECODING_FAIL, []⟩ := by
  have hl : hash_lengths_ok env64 (salt_args n) := by
    refine ⟨?_, h2, ?_, ?_⟩
    · show 4 ≤ 4294967295
      decide
    · show 4 ≤ 4294967295
      decide
    · show 4 ≤ 4
      decide
  have hm : env64.malloc 0 (salt_args n).hashlen = some [170, 170, 170, 170] := rfl
  have hc : (env64.argon2_ctx (hash_context env64 (salt_args n) [170, 170, 170, 170])
      (salt_args n).type).1 = ARGON2_OK := rfl
  have he : (salt_args n).encoded = some (List.replicate (n + 25) 0) := rfl
  have hn : (salt_args n).encodedlen ≠ 0 := Nat.succ_ne_zero _
  have hu : to_uint32 n = n := to_uint32_of_le h2
  have hsalt : (rendered_context env64 (salt_args n) [170, 170, 170, 170]).salt
      = some (List.replicate n 115) := rfl
  have hout : (rendered_context env64 (salt_args n) [170, 170, 170, 170]).out
      = some (ref_tag (hash_context env64 (salt_args n) [170, 170, 170, 170]) 2) := rfl
  have hsl : (rendered_context env64 (salt_args n) [170, 170, 170, 170]).saltlen = n := hu
  have hol : (rendered_context env64 (salt_args n) [170, 170, 170, 170]).outlen = 4 := rfl
  have htl : (ref_tag (hash_context env64 (salt_args n) [170, 170, 170, 170]) 2).length
      = 4 := by
    simp [ref_tag, hash_context, salt_args, sample_hash_args, to_uint32]
  have hlen : (ref_render (rendered_context env64 (salt_args n) [170, 170, 170, 170])
      2).length = n + 12 := by
    rw [ref_render_length, hsalt, hout, hsl, hol]
    simp [htl]
  have hfit : ¬ (ref_render (rendered_context env64 (salt_args n) [170, 170, 170, 170])
      2).length > n + 25 := by
    rw [hlen]
    omega
  have hr : (env64.encode_string (List.replicate (n + 25) 0) (salt_args n).encodedlen
      (rendered_context env64 (salt_args n) [170, 170, 170, 170]) (salt_args n).type).1
      = ARGON2_OK := by
    show (ref_encode_string (List.replicate (n + 25) 0) (n + 25)
      (rendered_context env64 (salt_args n) [170, 170, 170, 170]) 2).1 = ARGON2_OK
    unfold ref_encode_string
    rw [if_neg hfit]
  have hrec : (env64.encode_string (List.replicate (n + 25) 0) (salt_args n).encodedlen
      (rendered_context env64 (salt_args n) [170, 170, 170, 170]) (salt_args n).type).2
      = memcpy (List.replicate (n + 25) 0)
          (ref_render (rendered_context env64 (salt_args n) [170, 170, 170, 170]) 2)
          (ref_render (rendered_context env64 (salt_args n) [170, 170, 170, 170]) 2).length := by
    show (ref_encode_string (List.replicate (n + 25) 0) (n + 25)
      (rendered_context env64 (salt_args n) [170, 170, 170, 170]) 2).2 = _
    unfold ref_encode_string
    rw [if_neg hfit]
  obtain ⟨hret, henc⟩ := hash_full_encoded_ok env64 (salt_args n) [170, 170, 170, 170]
    (List.replicate (n + 25) 0) hl hm hc he hn hr
  rw [hrec] at henc
  have hlong : UINT32_MAX < strlen (memcpy (List.replicate (n + 25) 0)
      (ref_render (rendered_context env64 (salt_args n) [170, 170, 170, 170]) 2)
      (ref_render (rendered_context env64 (salt_args n) [170, 170, 170, 170]) 2).length) := by
    rw [strlen_ref_record, hsalt, hout, hsl, hol]
    simp only [Option.getD_some, List.length_replicate, htl, UINT32_MAX]
    omega
  refine ⟨hret, ⟨_, henc, hlong, ?_⟩, ?_⟩
  · intro c0 hc0 hc1
    exact ref_decode_recovers 0 _ c0 2 _ (List.replicate n 115)
      (ref_tag (hash_context env64 (salt_args n) [170, 170, 170, 170]) 2) hsalt hout
      (by rw [hsl]; simp) (by rw [hol, htl]) (by rw [hsl]; exact hc0)
      (by rw [hol]; exact hc1) (show 8 * 1 ≤ 16 by decide) rfl rfl rfl rfl
  · exact verify_full_too_long env64 _ _ (show 4 ≤ 4294967295 by decide) henc hlong

/-- C1 as stated fails on a 64-bit platform.  In the stand-in environment the
core verification recomputes and compares, the core is deterministic and no
allocation fails.  The sample call with a salt of 2^32-1 bytes returns
`ARGON2_OK` and writes a record that the decoder, given room for the fields,
decodes with the salt, the tag and the parameters rendered; but the record is
longer than `UINT32_MAX`, and `argon2_verify_full` on it, with the same
password, secret and associated data, returns `ARGON2_DECODING_FAIL` without
one call. -/
theorem argon2_round_trip_long_record :
    VerifyRecomputes env64 ∧ CoreDeterministic env64 ∧
    (∀ k n, env64.malloc k n ≠ none) ∧
    huge_salt_args.representable env64 ∧
    (argon2_hash_full env64 huge_salt_args).ret = ARGON2_OK ∧
    (∃ e, (argon2_hash_full env64 huge_salt_args).encoded = some e ∧
      UINT32_MAX < strlen e ∧
      ∀ c0 : argon2_context, 4294967295 ≤ c0.saltlen → 4 ≤ c0.outlen →
        (env64.decode_string c0 e 2).1 = ARGON2_OK ∧
        Recovers (rendered_context env64 huge_salt_args [170, 170, 170, 170]) c0
          (env64.decode_string c0 e 2).2) ∧
    argon2_verify_full env64
      (verify_of env64 huge_salt_args (some [107, 101, 121]) 3 (some [97, 100]) 2)
      = ⟨ARGON2_DECODING_FAIL, []⟩ :=
  ⟨fun _ _ _ => rfl, ref_core_deterministic _ _, fun _ _ h => Option.noConfusion h,
    by decide,
    (long_salt_record 4294967295 (by decide) (by decide) (some [107, 101, 121]) 3
      (some [97, 100]) 2).1,
    (long_salt_record 4294967295 (by decide) (by decide) (some [107, 101, 121]) 3
      (some [97, 100]) 2).2.1,
    (long_salt_record 4294967295 (by decide) (by decide) (some [107, 101, 121]) 3
      (some [97, 100]) 2).2.2⟩

/-- After the reduction modulo 2^32 a secret can go unnoticed: on a 64-bit
platform the sample call with a secret of 4 GiB returns `ARGON2_OK`, and
verifying its record with the secret omitted returns `ARGON2_OK` too. -/
theorem reduced_secret_false_match :
    huge_secret_args.secretlen = 4294967296 ∧
    (argon2_hash_full env64 huge_secret_args).ret = ARGON2_OK ∧
    (argon2_verify_full env64
      (verify_of env64 huge_secret_args none 0 (some [97, 100]) 2)).ret = ARGON2_OK :=
  ⟨rfl, rfl, rfl⟩

/-! ## Verifying with the secret or the associated data left out -/

end Argon2Full
